import Mathlib

/-!
Verification of the audio framing and sequencing core of a browser-based
text-to-speech composer.

The development shallowly embeds the functions of `src/utils/audioUtils.ts`
(base64 codec, WAV framer, PCM decoder, concatenator, zip packager) and the
playback/segment-list handlers of `src/App.tsx`.  Byte buffers (`Uint8Array`)
are modelled as `List Nat` whose entries are byte values; JavaScript strings
are modelled as lists of UTF-16 code units (`List Nat`) where character-level
behaviour matters, and as Lean `String` where only equality matters.
Machine arithmetic (`DataView.setUint32` / `setUint16`, `Int16Array`) is made
explicit with `% 2^w` truncation.  Floating-point sample values are modelled
as `ℚ`: every value produced by the decoder is an int16 divided by `32768`,
which is exactly representable in both f32 and f64, so the rational model is
exact.
-/

set_option linter.unusedVariables false

/-- Little-endian bytes stored by `DataView.setUint32(_, n, true)`.  The
JavaScript engine converts `n` with ToUint32 (mod 2^32) and stores four bytes;
extracting the four little-endian bytes directly is equivalent for every
natural number `n`. -/
def u32le (n : Nat) : List Nat :=
  [n % 256, n / 256 % 256, n / 65536 % 256, n / 16777216 % 256]

/-- Little-endian bytes stored by `DataView.setUint16(_, n, true)` (mod 2^16). -/
def u16le (n : Nat) : List Nat :=
  [n % 256, n / 256 % 256]

/-- Bytes stored by the `writeString` helper of `audioUtils.ts`: it writes
`charCodeAt(i)` of each character with `setUint8` (which truncates mod 256). -/
def writeStringBytes (s : String) : List Nat :=
  s.data.map (fun ch => ch.toNat % 256)

/-- Embedding of `createWavBlob` (src/utils/audioUtils.ts, lines 32-64).
The returned blob is `new Blob([header, pcmData])`: the 44-byte header laid
out by the `DataView` writes, followed by the payload unchanged. -/
def createWavBlob (pcmData : List Nat) (sampleRate : Nat) : List Nat :=
  writeStringBytes "RIFF"
    ++ u32le (36 + pcmData.length)
    ++ writeStringBytes "WAVE"
    ++ writeStringBytes "fmt "
    ++ u32le 16
    ++ u16le 1
    ++ u16le 1
    ++ u32le sampleRate
    ++ u32le (sampleRate * 2)
    ++ u16le 2
    ++ u16le 16
    ++ writeStringBytes "data"
    ++ u32le pcmData.length
    ++ pcmData

/-- Contiguous slice of a byte list: bytes `a` (inclusive) to `b` (exclusive). -/
def listSlice (l : List Nat) (a b : Nat) : List Nat :=
  (l.drop a).take (b - a)

set_option maxHeartbeats 1600000 in
/-- C1: for every payload and every positive sample rate, `createWavBlob`
produces `44 + payload length` bytes whose first 44 bytes match the spec's
header table exactly (RIFF/chunk size/WAVE/fmt /16/PCM/mono/rate/byte
rate/block align/bits/data/payload length, all little-endian) and whose
remaining bytes are the payload unchanged. -/
theorem wav_header_exact (pcm : List Nat) (rate : Nat) (hrate : 0 < rate) :
    (createWavBlob pcm rate).length = 44 + pcm.length ∧
    (createWavBlob pcm rate).drop 44 = pcm ∧
    listSlice (createWavBlob pcm rate) 0 4 = [82, 73, 70, 70] ∧
    listSlice (createWavBlob pcm rate) 4 8 = u32le (36 + pcm.length) ∧
    listSlice (createWavBlob pcm rate) 8 12 = [87, 65, 86, 69] ∧
    listSlice (createWavBlob pcm rate) 12 16 = [102, 109, 116, 32] ∧
    listSlice (createWavBlob pcm rate) 16 20 = u32le 16 ∧
    listSlice (createWavBlob pcm rate) 20 22 = u16le 1 ∧
    listSlice (createWavBlob pcm rate) 22 24 = u16le 1 ∧
    listSlice (createWavBlob pcm rate) 24 28 = u32le rate ∧
    listSlice (createWavBlob pcm rate) 28 32 = u32le (rate * 2) ∧
    listSlice (createWavBlob pcm rate) 32 34 = u16le 2 ∧
    listSlice (createWavBlob pcm rate) 34 36 = u16le 16 ∧
    listSlice (createWavBlob pcm rate) 36 40 = [100, 97, 116, 97] ∧
    listSlice (createWavBlob pcm rate) 40 44 = u32le pcm.length := by
  refine ⟨?_, rfl, rfl, rfl, rfl, rfl, rfl, rfl, rfl, rfl, rfl, rfl, rfl, rfl, rfl⟩
  simp only [createWavBlob, writeStringBytes, u32le, u16le, List.length_append,
    List.length_cons, List.length_nil, List.length_map]
  try omega

/-- Witness for `wav_header_exact` at payload `[5]` and rate 24000. -/
theorem wav_header_exact_witness :
    (createWavBlob [5] 24000).length = 44 + 1 ∧
    (createWavBlob [5] 24000).drop 44 = [5] :=
  ⟨(wav_header_exact [5] 24000 (by decide)).1, (wav_header_exact [5] 24000 (by decide)).2.1⟩

/-- ASCII codes of the standard base64 alphabet `A-Z a-z 0-9 + /`, used by the
platform primitives `btoa`/`atob` that `encode`/`decode` call. -/
def b64alpha : List Nat :=
  [65, 66, 67, 68, 69, 70, 71, 72, 73, 74, 75, 76, 77, 78, 79, 80,
   81, 82, 83, 84, 85, 86, 87, 88, 89, 90,
   97, 98, 99, 100, 101, 102, 103, 104, 105, 106, 107, 108, 109, 110, 111, 112,
   113, 114, 115, 116, 117, 118, 119, 120, 121, 122,
   48, 49, 50, 51, 52, 53, 54, 55, 56, 57, 43, 47]

/-- Code of the base64 digit with index `i` (`i < 64`). -/
def alphaChar (i : Nat) : Nat := b64alpha.getD i 0

/-- Index of a code in the base64 alphabet, `none` for codes outside it. -/
def unalpha (c : Nat) : Option Nat :=
  (List.range 64).find? (fun i => alphaChar i = c)

/-- Model of the platform primitive `btoa` on a latin1 binary string (list of
code units, each `< 256` on btoa's domain): standard base64 with `=` (code 61)
padding, processing three input bytes into four output digits. -/
def btoa : List Nat → List Nat
  | [] => []
  | [a] => [alphaChar (a / 4), alphaChar (a % 4 * 16), 61, 61]
  | [a, b] => [alphaChar (a / 4), alphaChar (a % 4 * 16 + b / 16), alphaChar (b % 16 * 4), 61]
  | a :: b :: c :: rest =>
    alphaChar (a / 4) :: alphaChar (a % 4 * 16 + b / 16)
      :: alphaChar (b % 16 * 4 + c / 64) :: alphaChar (c % 64) :: btoa rest

/-- Model of the platform primitive `atob`: inverse base64, consuming four
digits at a time, handling `=` padding in the final quantum, failing (`none`)
on codes outside the transport alphabet or malformed padding. -/
def atob : List Nat → Option (List Nat)
  | [] => some []
  | c1 :: c2 :: c3 :: c4 :: rest =>
    match unalpha c1, unalpha c2 with
    | some i1, some i2 =>
      if c3 = 61 then
        if c4 = 61 ∧ rest = [] then some [i1 * 4 + i2 / 16] else none
      else
        match unalpha c3 with
        | some i3 =>
          if c4 = 61 then
            if rest = [] then some [i1 * 4 + i2 / 16, i2 % 16 * 16 + i3 / 4] else none
          else
            match unalpha c4 with
            | some i4 =>
              (atob rest).map (fun tail =>
                (i1 * 4 + i2 / 16) :: (i2 % 16 * 16 + i3 / 4) :: (i3 % 4 * 64 + i4) :: tail)
            | none => none
        | none => none
    | _, _ => none
  | _ => none

/-- Model of `String.fromCharCode` for one argument: it produces the UTF-16
code unit `n % 2^16`. -/
def fromCharCode (n : Nat) : Nat := n % 65536

/-- Embedding of `encode` (src/utils/audioUtils.ts, lines 7-14): build a
binary string whose code units are the byte values (`String.fromCharCode`
per byte), then `btoa` it. -/
def encode (bytes : List Nat) : List Nat := btoa (bytes.map fromCharCode)

/-- Embedding of `decode` (src/utils/audioUtils.ts, lines 19-27): `atob` the
transport text, then store each `charCodeAt` into a `Uint8Array` (which
truncates each value mod 256). -/
def decode (base64 : List Nat) : Option (List Nat) :=
  (atob base64).map (List.map (fun c => c % 256))

/-- The base64 digit map and its inverse cancel on every index below 64. -/
theorem unalpha_alphaChar : ∀ i, i < 64 → unalpha (alphaChar i) = some i := by decide

/-- No base64 digit is the padding code 61 (`=`). -/
theorem alphaChar_ne_pad : ∀ i, i < 64 → alphaChar i ≠ 61 := by decide

/-- Decoding inverts encoding for every binary string of bytes (induction on
three-byte quanta, with a fuel bound for the well-founded recursion). -/
theorem atob_btoa_aux : ∀ (n : Nat) (b : List Nat), b.length ≤ n → (∀ x ∈ b, x < 256) →
    atob (btoa b) = some b := by
  intro n
  induction n with
  | zero =>
    intro b hlen _
    have : b = [] := List.length_eq_zero.mp (Nat.le_zero.mp hlen)
    subst this; rfl
  | succ n ih =>
    intro b hlen hmem
    match b with
    | [] => rfl
    | [a] =>
      have ha : a < 256 := hmem a (by simp)
      have h1 := unalpha_alphaChar (a / 4) (by omega)
      have h2 := unalpha_alphaChar (a % 4 * 16) (by omega)
      simp only [btoa, atob, h1, h2]
      simp only [List.cons.injEq, and_true, Option.some.injEq, if_pos rfl, and_self, if_true]
      omega
    | [a, b] =>
      have ha : a < 256 := hmem a (by simp)
      have hb : b < 256 := hmem b (by simp)
      have h1 := unalpha_alphaChar (a / 4) (by omega)
      have h2 := unalpha_alphaChar (a % 4 * 16 + b / 16) (by omega)
      have h3 := unalpha_alphaChar (b % 16 * 4) (by omega)
      have h4 := alphaChar_ne_pad (b % 16 * 4) (by omega)
      simp only [btoa, atob, h1, h2, h3, if_neg h4]
      simp only [List.cons.injEq, and_true, Option.some.injEq, if_pos rfl, if_true]
      exact ⟨by omega, by omega⟩
    | a :: b :: c :: rest =>
      have ha : a < 256 := hmem a (by simp)
      have hb : b < 256 := hmem b (by simp)
      have hc : c < 256 := hmem c (by simp)
      have hrest : atob (btoa rest) = some rest := by
        apply ih rest
        · simp only [List.length_cons] at hlen; omega
        · intro x hx; exact hmem x (by simp [hx])
      have h1 := unalpha_alphaChar (a / 4) (by omega)
      have h2 := unalpha_alphaChar (a % 4 * 16 + b / 16) (by omega)
      have h3 := unalpha_alphaChar (b % 16 * 4 + c / 64) (by omega)
      have h4 := alphaChar_ne_pad (b % 16 * 4 + c / 64) (by omega)
      have h5 := unalpha_alphaChar (c % 64) (by omega)
      have h6 := alphaChar_ne_pad (c % 64) (by omega)
      simp only [btoa, atob, h1, h2, h3, h5, if_neg h4, if_neg h6, hrest,
        Option.map_some', Option.some.injEq, List.cons.injEq, and_true]
      omega

/-- C3: for every byte buffer `b` (entries are byte values, including the
empty buffer and all 256 byte values), `decode (encode b) = b`. -/
theorem codec_roundtrip (b : List Nat) (hb : ∀ x ∈ b, x < 256) :
    decode (encode b) = some b := by
  have hmap : b.map fromCharCode = b := by
    rw [List.map_congr_left (g := id) ?_, List.map_id]
    intro x hx
    have := hb x hx
    simp [fromCharCode]
    omega
  have h1 : atob (btoa b) = some b := atob_btoa_aux b.length b le_rfl hb
  unfold decode encode
  rw [hmap, h1]
  simp only [Option.map_some', Option.some.injEq]
  rw [List.map_congr_left (g := id) ?_, List.map_id]
  intro x hx
  have := hb x hx
  simp
  omega

/-- Witness for `codec_roundtrip` on a buffer containing the padding code,
a high byte, zero and the extremes. -/
theorem codec_roundtrip_witness :
    (∀ x ∈ [0, 7, 61, 128, 255], x < 256) ∧
      decode (encode [0, 7, 61, 128, 255]) = some [0, 7, 61, 128, 255] :=
  ⟨by decide, codec_roundtrip [0, 7, 61, 128, 255] (by decide)⟩

/-- Signed 16-bit little-endian value formed from a low and a high byte, as an
`Int16Array` element reads memory (two's complement). -/
def bytesToInt16 (lo hi : Nat) : Int :=
  let u := lo % 256 + 256 * (hi % 256)
  if u < 32768 then (u : Int) else (u : Int) - 65536

/-- The `k`-th element of the `Int16Array` view over a byte buffer. -/
def int16At (data : List Nat) (k : Nat) : Int :=
  bytesToInt16 (data.getD (2 * k) 0) (data.getD (2 * k + 1) 0)

/-- The playback buffer produced by `decodeAudioToBuffer`: per-channel
sequences of normalized samples, tagged with a sample rate.  Each sample is
an int16 divided by 32768, exactly representable as a float, so `ℚ` is an
exact model. -/
structure DecodedAudio where
  sampleRate : Nat
  channels : List (List ℚ)
deriving DecidableEq

/-- Embedding of `decodeAudioToBuffer` (src/utils/audioUtils.ts, lines
75-92).  Two platform errors are modelled: `new Int16Array(data.buffer)`
throws a `RangeError` when the byte length of the buffer is not a multiple
of 2 (in this app the `Uint8Array` always views its whole buffer, since
every buffer is produced by `decode`); then
`ctx.createBuffer(numChannels, frameCount, sampleRate)` throws a
`NotSupportedError` when the frame count is zero — `frameCount` is
`dataInt16.length / numChannels`, whose fractional JS quotient the
unsigned-long coercion truncates, so zero frames happen exactly when the
buffer is empty, the channel count is zero, or the channel count exceeds
the sample count.  (`createBuffer` also requires a supported sample rate;
the call sites always pass the default 24000, inside the mandatory 8000 to
96000 range, so that check is not modelled.)  On success, channel `c`
holds `dataInt16[i * numChannels + c] / 32768` at frame `i`. -/
def decodeAudioToBuffer (data : List Nat) (sampleRate : Nat) (numChannels : Nat) :
    Except String DecodedAudio :=
  if data.length % 2 = 0 then
    if data.length / 2 / numChannels = 0 then
      Except.error "NotSupportedError: AudioContext.createBuffer: length must be at least 1"
    else
      Except.ok
        { sampleRate := sampleRate,
          channels := (List.range numChannels).map (fun channel =>
            (List.range (data.length / 2 / numChannels)).map (fun i =>
              ((int16At data (i * numChannels + channel) : ℚ) / 32768))) }
  else
    Except.error "RangeError: byte length of Int16Array should be a multiple of 2"

/-- Whether an `Except` result of the decoder is a success. -/
def exceptIsOk (e : Except String DecodedAudio) : Bool :=
  match e with
  | Except.ok _ => true
  | Except.error _ => false

/-- Channel data of a successful decode (`[]` on the error branches). -/
def okChannels (e : Except String DecodedAudio) : List (List ℚ) :=
  match e with
  | Except.ok buf => buf.channels
  | Except.error _ => []

/-- C4 (counterexample): the decoder does not produce samples for the empty
(even-length) buffer — `createBuffer` rejects a zero frame count — so the
claim that every even-length buffer decodes to its normalized samples is
false at the empty buffer. -/
theorem decoder_empty_counterexample :
    decodeAudioToBuffer [] 24000 1
      = Except.error "NotSupportedError: AudioContext.createBuffer: length must be at least 1" := rfl

/-- C4 (amended): on every even-length buffer with at least one full frame
(`⌊sampleCount / numChannels⌋ ≥ 1`) the decoder succeeds, returns
`numChannels` channels of `⌊sampleCount / numChannels⌋` frames, and the
sample at frame `i` of channel `c` is `int16[i * numChannels + c] / 32768`;
with zero frames (empty buffer, or more channels than samples) it instead
fails with `createBuffer`'s `NotSupportedError`. -/
theorem decoder_normalization (data : List Nat) (rate : Nat) (numChannels : Nat)
    (heven : data.length % 2 = 0) (hframes : 0 < data.length / 2 / numChannels) :
    exceptIsOk (decodeAudioToBuffer data rate numChannels) = true ∧
    (okChannels (decodeAudioToBuffer data rate numChannels)).length = numChannels ∧
    (∀ c, c < numChannels →
      ((okChannels (decodeAudioToBuffer data rate numChannels)).getD c []).length
        = data.length / 2 / numChannels) ∧
    (∀ c i, c < numChannels → i < data.length / 2 / numChannels →
      ((okChannels (decodeAudioToBuffer data rate numChannels)).getD c []).getD i 0
        = (int16At data (i * numChannels + c) : ℚ) / 32768) := by
  have hfz : ¬ (data.length / 2 / numChannels = 0) := by omega
  simp only [decodeAudioToBuffer, if_pos heven, if_neg hfz, exceptIsOk, okChannels]
  have houter : ∀ (F : Nat → List ℚ) (c : Nat), c < numChannels →
      (List.map F (List.range numChannels)).getD c [] = F c := by
    intro F c hc
    rw [List.getD_eq_getElem?_getD, List.getElem?_map, List.getElem?_range hc]
    simp
  refine ⟨by trivial, by simp, ?_, ?_⟩
  · intro c hc
    rw [houter _ c hc]
    simp
  · intro c i hc hi
    rw [houter _ c hc]
    rw [List.getD_eq_getElem?_getD, List.getElem?_map, List.getElem?_range hi]
    simp

/-- Witness for `decoder_normalization`: the int16 values 0, 32767, -32768,
-1 (little-endian bytes) decode to 0, 32767/32768, -1, -1/32768. -/
theorem decoder_normalization_witness :
    ((okChannels (decodeAudioToBuffer [0, 0, 255, 127, 0, 128, 255, 255] 24000 1)).getD 0 []).getD 0 0 = 0 ∧
    ((okChannels (decodeAudioToBuffer [0, 0, 255, 127, 0, 128, 255, 255] 24000 1)).getD 0 []).getD 1 0 = 32767 / 32768 ∧
    ((okChannels (decodeAudioToBuffer [0, 0, 255, 127, 0, 128, 255, 255] 24000 1)).getD 0 []).getD 2 0 = -1 ∧
    ((okChannels (decodeAudioToBuffer [0, 0, 255, 127, 0, 128, 255, 255] 24000 1)).getD 0 []).getD 3 0 = -1 / 32768 := by
  have h := (decoder_normalization [0, 0, 255, 127, 0, 128, 255, 255] 24000 1 (by decide) (by decide)).2.2.2
  refine ⟨?_, ?_, ?_, ?_⟩ <;>
    · rw [h 0 _ (by decide) (by decide)]
      norm_num [int16At, bytesToInt16]

/-- C2 (counterexample): on the odd-length buffer `[0, 0, 0]` the decoder
does fail — the `Int16Array` construction rejects an odd byte length — so
the claim that odd-length buffers decode without failure is false. -/
theorem decoder_truncation_counterexample :
    decodeAudioToBuffer [0, 0, 0] 24000 1
      = Except.error "RangeError: byte length of Int16Array should be a multiple of 2" := rfl

/-- C2 (amended): a buffer of odd length `2n+1` always fails to decode with
a `RangeError` — the `Int16Array` view construction rejects byte lengths
that are not a multiple of 2 — so the trailing odd byte is not silently
dropped and no frames are produced. -/
theorem decoder_odd_rejected :
    ∀ (n : Nat) (data : List Nat), data.length = 2 * n + 1 →
      decodeAudioToBuffer data 24000 1
        = Except.error "RangeError: byte length of Int16Array should be a multiple of 2" := by
  intro n data hlen
  have hodd : ¬ (data.length % 2 = 0) := by omega
  rw [decodeAudioToBuffer, if_neg hodd]

/-- Witness for `decoder_odd_rejected`: a buffer of length 5 fails with the
`RangeError`. -/
theorem decoder_odd_rejected_witness :
    decodeAudioToBuffer [9, 9, 9, 9, 9] 24000 1
      = Except.error "RangeError: byte length of Int16Array should be a multiple of 2" :=
  decoder_odd_rejected 2 [9, 9, 9, 9, 9] rfl

/-- Embedding of the `AudioBlock` interface (src/types.ts): one segment of
the composition.  `audioData` is the optional raw PCM buffer, `audioUrl` the
optional playable-container reference (modelled by the container's URL
string identity only). -/
structure AudioBlock where
  id : String
  text : String
  audioData : Option (List Nat) := none
  audioUrl : Option String := none
  isGenerating : Bool := false
  isPlaying : Bool := false
  error : Option String := none
deriving DecidableEq, Inhabited

/-- Payload assembly of `concatenateToSingleWav` (src/utils/audioUtils.ts,
lines 114-127): the `forEach` copy loop writes each present buffer at the
running offset into the preallocated output, which over lists is a left fold
appending each present buffer in order. -/
def concatPcm (blocks : List AudioBlock) : List Nat :=
  blocks.foldl (fun result b =>
    match b.audioData with
    | some d => result ++ d
    | none => result) []

/-- Embedding of `concatenateToSingleWav`: the assembled payload framed into
one WAV container at the default 24000 Hz. -/
def concatenateToSingleWav (blocks : List AudioBlock) : List Nat :=
  createWavBlob (concatPcm blocks) 24000

/-- Embedding of `generateZip` (src/utils/audioUtils.ts, lines 97-109): one
archive entry `audio_{index+1}.wav` per block whose `audioData` is present
(the `forEach` index is the block's 0-based position in the given list),
each entry the framed container of that block's buffer. -/
def generateZip (blocks : List AudioBlock) : List (String × List Nat) :=
  blocks.enum.filterMap (fun p =>
    p.2.audioData.map (fun d => ("audio_" ++ toString (p.1 + 1) ++ ".wav", createWavBlob d 24000)))

/-- The copy loop of `concatenateToSingleWav`, started from any
accumulator, appends the concatenation of the present buffers in order. -/
theorem concatPcm_aux (blocks : List AudioBlock) : ∀ (acc : List Nat),
    blocks.foldl (fun result b =>
      match b.audioData with
      | some d => result ++ d
      | none => result) acc = acc ++ (blocks.filterMap AudioBlock.audioData).flatten := by
  induction blocks with
  | nil => intro acc; simp
  | cons b rest ih =>
    intro acc
    cases hb : b.audioData with
    | none => simp [List.foldl_cons, hb, ih]
    | some d => simp [List.foldl_cons, hb, ih, List.append_assoc]

/-- The assembled payload is the order-preserving concatenation of the
present buffers. -/
theorem concatPcm_eq_flatten (blocks : List AudioBlock) :
    concatPcm blocks = (blocks.filterMap AudioBlock.audioData).flatten := by
  simpa using concatPcm_aux blocks []

/-- C5: the concatenator skips buffer-less segments, preserves order, its
payload length is the sum of the present buffers' lengths, every payload
byte equals the corresponding byte of the segment owning that offset, and
the payload is framed into one container. -/
theorem concat_order_length (blocks : List AudioBlock) :
    concatenateToSingleWav blocks
      = createWavBlob ((blocks.filterMap AudioBlock.audioData).flatten) 24000 ∧
    (concatPcm blocks).length
      = (blocks.map (fun b => (b.audioData.getD []).length)).sum ∧
    (∀ (pre : List (List Nat)) (d : List Nat) (post : List (List Nat)),
      blocks.filterMap AudioBlock.audioData = pre ++ d :: post →
      ∀ m, m < d.length →
        (concatPcm blocks).getD (pre.flatten.length + m) 0 = d.getD m 0) := by
  refine ⟨by rw [concatenateToSingleWav, concatPcm_eq_flatten], ?_, ?_⟩
  · rw [concatPcm_eq_flatten, List.length_flatten]
    induction blocks with
    | nil => rfl
    | cons b rest ih =>
      cases hb : b.audioData with
      | none => simp [hb, ih]
      | some d => simp [hb, ih]
  · intro pre d post hsplit m hm
    rw [concatPcm_eq_flatten, hsplit, List.flatten_append, List.flatten_cons]
    rw [← List.append_assoc]
    rw [List.getD_append _ _ _ _ (by simp [List.length_append]; omega)]
    rw [List.getD_append_right _ _ _ _ (by omega)]
    congr 1
    omega

/-- Segments `[A(3 bytes), missing, B(5 bytes)]` used to witness C5. -/
def blocksC5 : List AudioBlock :=
  [{ id := "a", text := "", audioData := some [1, 2, 3] },
   { id := "b", text := "" },
   { id := "c", text := "", audioData := some [4, 5, 6, 7, 8] }]

/-- Witness for `concat_order_length`: with segments `[A, missing, B]` the
second payload byte of `B`'s region equals `B`'s second byte. -/
theorem concat_order_length_witness :
    blocksC5.filterMap AudioBlock.audioData = [[1, 2, 3]] ++ [4, 5, 6, 7, 8] :: [] ∧
    (1 : Nat) < 5 ∧
    (concatPcm blocksC5).getD ([[1, 2, 3]].flatten.length + 1) 0 = [4, 5, 6, 7, 8].getD 1 0 :=
  ⟨by decide, by decide,
   (concat_order_length blocksC5).2.2 [[1, 2, 3]] [4, 5, 6, 7, 8] [] (by decide) 1 (by decide)⟩

/-- Header length of every framed container. -/
theorem length_createWavBlob (p : List Nat) (r : Nat) :
    (createWavBlob p r).length = 44 + p.length := by
  simp only [createWavBlob, writeStringBytes, u32le, u16le, List.length_append,
    List.length_cons, List.length_nil, List.length_map]
  try omega

/-- 100-byte PCM buffer of the end-to-end scenario. -/
def pcmA : List Nat := List.replicate 100 1

/-- 200-byte PCM buffer of the end-to-end scenario. -/
def pcmB : List Nat := List.replicate 200 2

/-- Three segments carrying buffers of lengths 100, none, 200. -/
def scenarioBlocks : List AudioBlock :=
  [{ id := "s1", text := "first", audioData := some pcmA },
   { id := "s2", text := "second", audioData := none },
   { id := "s3", text := "third", audioData := some pcmB }]

set_option maxRecDepth 8192 in
/-- C6: on segments with buffers of lengths 100, missing, 200,
`concatenateToSingleWav` yields a 344-byte container and `generateZip`
yields exactly the entries `audio_1.wav` and `audio_3.wav` (position 2
skipped), each the framed container of its segment's buffer. -/
theorem end_to_end_scenario :
    (concatenateToSingleWav scenarioBlocks).length = 344 ∧
    generateZip scenarioBlocks
      = [("audio_1.wav", createWavBlob pcmA 24000), ("audio_3.wav", createWavBlob pcmB 24000)] := by
  constructor
  · have h1 : concatPcm scenarioBlocks = pcmA ++ pcmB := rfl
    rw [concatenateToSingleWav, length_createWavBlob, h1]
    simp only [List.length_append, pcmA, pcmB, List.length_replicate]
  · decide

/-- State of the `App` component that the playback sequencer touches: the
segment list, the `isPlayingAll` flag and the `currentAudioSource` ref
(source nodes are identified by a number; only presence matters to the
loop's break check). -/
structure AppState where
  blocks : List AudioBlock
  isPlayingAll : Bool
  currentSource : Option Nat

/-- The `setBlocks(prev => prev.map(b => b.id === id ? {...b, isPlaying: v} : b))`
updates used by the playback handlers. -/
def setPlaying (blocks : List AudioBlock) (id : String) (v : Bool) : List AudioBlock :=
  blocks.map (fun b => if b.id = id then { b with isPlaying := v } else b)

/-- Embedding of `stopAllPlayback` (src/App.tsx, lines 29-36): stop and drop
the current source, clear `isPlayingAll`, clear every segment's playing
flag. -/
def stopAllPlayback (s : AppState) : AppState :=
  { s with currentSource := none,
           isPlayingAll := false,
           blocks := s.blocks.map (fun b => { b with isPlaying := false }) }

/-- What the environment does while one clip plays (the only suspension
point at which user events can interleave — the `await decodeAudioToBuffer`
gap admits no user macrotask before the clip starts, because the browser
drains microtasks first): any `setBlocks`-style edit of the segment list,
and possibly an invocation of `stopAllPlayback`. -/
structure ClipEvent where
  edit : List AudioBlock → List AudioBlock
  stopped : Bool

/-- No interference: no edit, no stop. -/
def defaultClipEvent : ClipEvent := { edit := fun bs => bs, stopped := false }

/-- The `for (const block of playableBlocks)` loop of `playAllSequentially`
(src/App.tsx, lines 71-93) over the captured playlist.  Per iteration:
skip a block without data (`continue`); `await decodeAudioToBuffer` the
block's buffer — if that decode rejects (odd-length or zero-frame buffer),
the rejection propagates out of the async function, aborting the loop with
the state as it stands and `setIsPlayingAll(false)` never reached;
otherwise start the clip (flag the block, set the current source), let the
environment act during the playback await, run the `onended` handler
(clear the block's flag, resolve), and break if the current source was
nulled (`if (!currentAudioSource.current) break`).  Returns the final
state and the ids of the clips that entered playback (one entry per
executed `source.start()`). -/
def runClips : List AudioBlock → List ClipEvent → Nat → AppState → AppState × List String
  | [], _, _, s => ({ s with isPlayingAll := false }, [])
  | b :: rest, events, src, s =>
    if b.audioData.isSome then
      match decodeAudioToBuffer (b.audioData.getD []) 24000 1 with
      | Except.error _ => (s, [])
      | Except.ok _ =>
        let ev := events.headD defaultClipEvent
        let s1 : AppState :=
          { s with blocks := setPlaying s.blocks b.id true, currentSource := some src }
        let s2 : AppState := { s1 with blocks := ev.edit s1.blocks }
        let s3 : AppState := if ev.stopped then stopAllPlayback s2 else s2
        let s4 : AppState := { s3 with blocks := setPlaying s3.blocks b.id false }
        match s4.currentSource with
        | none => ({ s4 with isPlayingAll := false }, [b.id])
        | some _ =>
          let r := runClips rest events.tail (src + 1) s4
          (r.1, b.id :: r.2)
    else
      runClips rest events src s

/-- Embedding of `playAllSequentially` (src/App.tsx, lines 59-96): toggle
off when already playing all, return when no segment has data, otherwise
capture the playable segments and run the sequential loop.  `events`
supplies the environment's actions at each clip's suspension point. -/
def playAllSequentially (s : AppState) (events : List ClipEvent) : AppState × List String :=
  if s.isPlayingAll then (stopAllPlayback s, [])
  else
    let playableBlocks := s.blocks.filter (fun b => b.audioData.isSome)
    if playableBlocks.length = 0 then (s, [])
    else runClips playableBlocks events 0 { s with isPlayingAll := true }

/-- The first pending event is the one at index 0. -/
theorem headD_eq_getD_zero (events : List ClipEvent) :
    events.headD defaultClipEvent = events.getD 0 defaultClipEvent := by
  cases events <;> rfl

/-- With no stop invocation and every captured buffer decodable, every
captured playable clip starts, in order, whatever edits the environment
performs between clips. -/
theorem runClips_all_started (items : List AudioBlock) :
    ∀ (events : List ClipEvent) (src : Nat) (s : AppState),
    (∀ b ∈ items, b.audioData.isSome = true) →
    (∀ b ∈ items, exceptIsOk (decodeAudioToBuffer (b.audioData.getD []) 24000 1) = true) →
    (∀ e ∈ events, e.stopped = false) →
    (runClips items events src s).2 = items.map AudioBlock.id := by
  induction items with
  | nil => intro events src s _ _ _; rfl
  | cons b rest ih =>
    intro events src s hitems hdec hev
    have hb : b.audioData.isSome = true := hitems b (by simp)
    have hdb := hdec b (by simp)
    have hstop : (events.headD defaultClipEvent).stopped = false := by
      cases events with
      | nil => rfl
      | cons e es => exact hev e (by simp)
    have ihr : ∀ s', (runClips rest events.tail (src + 1) s').2 = rest.map AudioBlock.id :=
      fun s' => ih events.tail (src + 1) s' (fun x hx => hitems x (by simp [hx]))
        (fun x hx => hdec x (by simp [hx]))
        (fun e he => hev e (List.mem_of_mem_tail he))
    cases hd : decodeAudioToBuffer (b.audioData.getD []) 24000 1 with
    | error e =>
      rw [hd] at hdb
      simp [exceptIsOk] at hdb
    | ok buf =>
      simp only [runClips, hb, if_true, hd, hstop, Bool.false_eq_true, if_false]
      simp [ihr]

/-- If the first stop invocation happens during clip `k`, at most `k + 1`
clips ever start, and the clips that start are an in-order prefix of the
playlist — whether the loop runs to the stop, aborts earlier on an
undecodable buffer, or exhausts a shorter playlist. -/
theorem runClips_stop_bound (items : List AudioBlock) :
    ∀ (events : List ClipEvent) (k : Nat) (src : Nat) (s : AppState),
    (∀ b ∈ items, b.audioData.isSome = true) →
    (∀ i, i < k → (events.getD i defaultClipEvent).stopped = false) →
    (events.getD k defaultClipEvent).stopped = true →
    (runClips items events src s).2.length ≤ k + 1 ∧
    (runClips items events src s).2
      = (items.map AudioBlock.id).take (runClips items events src s).2.length := by
  induction items with
  | nil => intro events k src s _ _ _; exact ⟨by simp [runClips], by simp [runClips]⟩
  | cons b rest ih =>
    intro events k src s hitems hbefore hk
    have hb : b.audioData.isSome = true := hitems b (by simp)
    cases hd : decodeAudioToBuffer (b.audioData.getD []) 24000 1 with
    | error e =>
      simp only [runClips, hb, if_true, hd]
      exact ⟨by simp, by simp⟩
    | ok buf =>
      cases events with
      | nil =>
        exfalso
        simp [List.getD] at hk
        exact absurd hk (by simp [defaultClipEvent])
      | cons e es =>
        cases k with
        | zero =>
          have hstop : e.stopped = true := by simpa using hk
          simp only [runClips, hb, if_true, hd, List.headD, hstop, if_pos rfl]
          constructor
          · simp [stopAllPlayback]
          · simp [stopAllPlayback]
        | succ k' =>
          have hstop : e.stopped = false := by
            have := hbefore 0 (by omega)
            simpa using this
          have ihr := ih es k' (src + 1)
            ({ blocks := setPlaying (e.edit (setPlaying s.blocks b.id true)) b.id false,
               isPlayingAll := s.isPlayingAll, currentSource := some src })
            (fun x hx => hitems x (by simp [hx]))
            (fun i hi => hbefore (i + 1) (by omega))
            (by simpa using hk)
          simp only [runClips, hb, if_true, hd, List.headD, hstop, Bool.false_eq_true, if_false]
          simp only [List.tail_cons]
          constructor
          · simp only [List.length_cons]
            omega
          · simp only [List.map_cons, List.length_cons, List.take_succ_cons, List.cons.injEq,
              true_and]
            exact ihr.2

/-- C8 (counterexample): with an odd-length (undecodable) buffer on the
captured playlist the real loop aborts at that segment, so the clips that
play are not the segments carrying a buffer at call start. -/
def sBad : AppState :=
  { blocks := [{ id := "p", text := "", audioData := some [1, 2] },
               { id := "q", text := "", audioData := some [1] },
               { id := "r", text := "", audioData := some [3, 4] }],
    isPlayingAll := false, currentSource := none }

/-- C8 (counterexample): on `sBad` the sequence plays only the first clip —
the second segment's odd buffer makes the awaited decode reject and abort
the loop — so the started clips differ from the captured playable ids. -/
theorem sequencer_order_counterexample :
    (playAllSequentially sBad []).2
      ≠ (sBad.blocks.filter (fun b => b.audioData.isSome)).map AudioBlock.id := by decide

/-- C8 (amended): provided every captured segment's buffer decodes (even
byte length, at least one frame), the clips that play are exactly the
segments carrying a buffer at the moment the call started, one at a time
in original order, each clip's natural completion awaited before the next
starts; concurrent edits to the segment list during playback do not
reorder or change the in-flight sequence. -/
theorem sequencer_order_captured (s : AppState) (events : List ClipEvent)
    (h1 : s.isPlayingAll = false)
    (h2 : ∀ e ∈ events, e.stopped = false)
    (h3 : ∀ b ∈ s.blocks.filter (fun b => b.audioData.isSome),
      exceptIsOk (decodeAudioToBuffer (b.audioData.getD []) 24000 1) = true) :
    (playAllSequentially s events).2
      = (s.blocks.filter (fun b => b.audioData.isSome)).map AudioBlock.id := by
  rw [playAllSequentially]
  rw [if_neg (by simp [h1])]
  by_cases hemp : (s.blocks.filter (fun b => b.audioData.isSome)).length = 0
  · rw [if_pos hemp]
    have hnil : s.blocks.filter (fun b => b.audioData.isSome) = [] :=
      List.length_eq_zero.mp hemp
    simp [hnil]
  · rw [if_neg hemp]
    exact runClips_all_started _ events 0 _ (fun b hb => (List.mem_filter.mp hb).2) h3 h2

/-- C7: if `stopAll` is first invoked during clip `k` of a running
`playAllSequentially`, then no segment after the currently-playing one
ever enters the playing state: at most `k + 1` clips start and they are an
in-order prefix of the captured playlist (this holds for every segment
list — a decode failure only aborts the loop earlier); and
`stopAllPlayback` itself is idempotent, always clears the active source,
the play-all flag and every segment's playing flag, and is safe on any
state (playing or not). -/
theorem sequencer_cancellation (s : AppState) (events : List ClipEvent) (k : Nat)
    (h1 : s.isPlayingAll = false)
    (h2 : ∀ i, i < k → (events.getD i defaultClipEvent).stopped = false)
    (h3 : (events.getD k defaultClipEvent).stopped = true) :
    (playAllSequentially s events).2.length ≤ k + 1 ∧
    (playAllSequentially s events).2
      = ((s.blocks.filter (fun b => b.audioData.isSome)).map AudioBlock.id).take
          (playAllSequentially s events).2.length ∧
    (∀ t : AppState, stopAllPlayback (stopAllPlayback t) = stopAllPlayback t) ∧
    (∀ t : AppState, (stopAllPlayback t).currentSource = none ∧
      (stopAllPlayback t).isPlayingAll = false ∧
      ∀ b ∈ (stopAllPlayback t).blocks, b.isPlaying = false) := by
  have hrun : (playAllSequentially s events).2.length ≤ k + 1 ∧
      (playAllSequentially s events).2
        = ((s.blocks.filter (fun b => b.audioData.isSome)).map AudioBlock.id).take
            (playAllSequentially s events).2.length := by
    rw [playAllSequentially]
    rw [if_neg (by simp [h1])]
    by_cases hemp : (s.blocks.filter (fun b => b.audioData.isSome)).length = 0
    · rw [if_pos hemp]
      exact ⟨by simp, by simp⟩
    · rw [if_neg hemp]
      exact runClips_stop_bound _ events k 0 _ (fun b hb => (List.mem_filter.mp hb).2) h2 h3
  refine ⟨hrun.1, hrun.2, ?_, ?_⟩
  · intro t
    simp only [stopAllPlayback, List.map_map]
    congr 1
  · intro t
    refine ⟨rfl, rfl, ?_⟩
    intro b hb
    simp only [stopAllPlayback, List.mem_map] at hb
    obtain ⟨a, _, rfl⟩ := hb
    rfl

/-- Three playable segments used to witness C7. -/
def s7 : AppState :=
  { blocks := [{ id := "x", text := "", audioData := some [1, 2] },
               { id := "y", text := "", audioData := some [3, 4] },
               { id := "z", text := "", audioData := some [5, 6] }],
    isPlayingAll := false, currentSource := none }

/-- Environment schedule for C7's witness: stop during the second clip. -/
def events7 : List ClipEvent := [defaultClipEvent, { edit := fun bs => bs, stopped := true }]

/-- Witness for `sequencer_cancellation`: stopping during clip 2 of 3
bounds the started clips by two, as an in-order prefix; the third clip
never starts. -/
theorem sequencer_cancellation_witness :
    (playAllSequentially s7 events7).2.length ≤ 1 + 1 ∧
    (playAllSequentially s7 events7).2
      = ((s7.blocks.filter (fun b => b.audioData.isSome)).map AudioBlock.id).take
          (playAllSequentially s7 events7).2.length :=
  ⟨(sequencer_cancellation s7 events7 1 rfl (by decide) (by decide)).1,
   (sequencer_cancellation s7 events7 1 rfl (by decide) (by decide)).2.1⟩

/-- Segments for C8's witness: a buffer-less segment between two segments
with decodable buffers. -/
def s8 : AppState :=
  { blocks := [{ id := "p", text := "", audioData := some [1, 2] },
               { id := "q", text := "" },
               { id := "r", text := "", audioData := some [3, 4] }],
    isPlayingAll := false, currentSource := none }

/-- Environment schedule for C8's witness: destructive edits of the live
segment list during playback, no stop. -/
def events8 : List ClipEvent :=
  [{ edit := fun bs => bs.drop 1, stopped := false },
   { edit := fun bs => [], stopped := false }]

/-- Witness for `sequencer_order_captured`: both playable clips play in
order even though the live list is emptied mid-sequence. -/
theorem sequencer_order_captured_witness :
    (playAllSequentially s8 events8).2
      = (s8.blocks.filter (fun b => b.audioData.isSome)).map AudioBlock.id :=
  sequencer_order_captured s8 events8 rfl (by decide) (by decide)

/-- Embedding of `updateBlockText` (src/App.tsx, lines 149-151): editing a
segment's text replaces its text and clears its raw buffer and container
reference, leaving every other field and every other segment as they were. -/
def updateBlockText (blocks : List AudioBlock) (id : String) (text : String) : List AudioBlock :=
  blocks.map (fun b =>
    if b.id = id then { b with text := text, audioData := none, audioUrl := none } else b)

/-- C9: editing a segment's text clears exactly that segment's `audioData`
and `audioUrl` (setting its text), keeps its identifier and all remaining
fields, and leaves every other segment untouched; the list length is
preserved. -/
theorem update_text_frame_effect (blocks : List AudioBlock) (id text : String) :
    (updateBlockText blocks id text).length = blocks.length ∧
    ∀ i, i < blocks.length →
      ((updateBlockText blocks id text).getD i default).id = (blocks.getD i default).id ∧
      ((blocks.getD i default).id = id →
        (updateBlockText blocks id text).getD i default
          = { blocks.getD i default with text := text, audioData := none, audioUrl := none }) ∧
      ((blocks.getD i default).id ≠ id →
        (updateBlockText blocks id text).getD i default = blocks.getD i default) := by
  refine ⟨by simp [updateBlockText], ?_⟩
  intro i hi
  have key : (updateBlockText blocks id text).getD i default
      = (if (blocks.getD i default).id = id then
          { blocks.getD i default with text := text, audioData := none, audioUrl := none }
         else blocks.getD i default) := by
    rw [updateBlockText, List.getD_eq_getElem?_getD, List.getElem?_map,
      List.getElem?_eq_getElem hi, List.getD_eq_getElem?_getD, List.getElem?_eq_getElem hi]
    simp
  by_cases hbid : (blocks.getD i default).id = id
  · rw [key, if_pos hbid]
    exact ⟨rfl, fun _ => rfl, fun h => absurd hbid h⟩
  · rw [key, if_neg hbid]
    exact ⟨rfl, fun h => absurd h hbid, fun _ => rfl⟩

/-- A generated segment used to witness C9. -/
def blocks9 : List AudioBlock :=
  [{ id := "m", text := "t", audioData := some [1], audioUrl := some "u", isPlaying := true }]

/-- Witness for `update_text_frame_effect`: editing the segment keeps its
id and clears its buffer and container reference. -/
theorem update_text_frame_effect_witness :
    ((updateBlockText blocks9 "m" "new").getD 0 default).id = (blocks9.getD 0 default).id ∧
    (updateBlockText blocks9 "m" "new").getD 0 default
      = { blocks9.getD 0 default with text := "new", audioData := none, audioUrl := none } :=
  ⟨((update_text_frame_effect blocks9 "m" "new").2 0 (by decide)).1,
   ((update_text_frame_effect blocks9 "m" "new").2 0 (by decide)).2.1 (by decide)⟩

/-- Embedding of `removeBlock` (src/App.tsx, lines 145-147): remove the
segment with the given id only when more than one segment remains. -/
def removeBlock (blocks : List AudioBlock) (id : String) : List AudioBlock :=
  if blocks.length > 1 then blocks.filter (fun b => b.id ≠ id) else blocks

/-- Embedding of `addBlock` (src/App.tsx, lines 131-143): append when no
anchor id is given; otherwise `splice` the new segment in after the anchor
(`findIndex` returns -1 when the anchor is absent, so `splice(-1+1, 0, x)`
inserts at the front). -/
def addBlock (blocks : List AudioBlock) (newBlock : AudioBlock) (afterId : Option String) :
    List AudioBlock :=
  match afterId with
  | none => blocks ++ [newBlock]
  | some aid =>
    match blocks.findIdx? (fun b => b.id = aid) with
    | some idx => blocks.take (idx + 1) ++ newBlock :: blocks.drop (idx + 1)
    | none => newBlock :: blocks

/-- The initial segment list of `App` (src/App.tsx, line 9): one empty
segment with a fresh identifier. -/
def initialBlocks (uuid : String) : List AudioBlock := [{ id := uuid, text := "" }]

/-- C10: the segment list starts with one segment; `removeBlock` is a no-op
when exactly one segment remains; and every list-changing operation keeps
the list non-empty (removal needs the generated ids to be distinct, which
the uuid keying guarantees: with duplicate ids the filter could drop several
segments at once). -/
theorem segment_list_nonempty :
    (∀ uuid, (initialBlocks uuid).length = 1) ∧
    (∀ (blocks : List AudioBlock) (id : String), blocks.length = 1 →
      removeBlock blocks id = blocks) ∧
    (∀ (blocks : List AudioBlock) (id : String), blocks ≠ [] →
      (blocks.map AudioBlock.id).Nodup → removeBlock blocks id ≠ []) ∧
    (∀ (blocks : List AudioBlock) (nb : AudioBlock) (afterId : Option String),
      addBlock blocks nb afterId ≠ []) ∧
    (∀ (blocks : List AudioBlock) (id text : String), blocks ≠ [] →
      updateBlockText blocks id text ≠ []) := by
  refine ⟨fun _ => rfl, ?_, ?_, ?_, ?_⟩
  · intro blocks id hlen
    rw [removeBlock, if_neg (by omega)]
  · intro blocks id hne hnodup
    match blocks with
    | [b] =>
      rw [removeBlock, if_neg (by simp)]
      exact hne
    | b1 :: b2 :: rest =>
      rw [removeBlock, if_pos (by simp)]
      have hid : b1.id ≠ b2.id := by
        simp only [List.map_cons, List.nodup_cons, List.mem_cons] at hnodup
        exact fun h => hnodup.1 (Or.inl h)
      by_cases h1 : b1.id = id
      · have h2 : b2.id ≠ id := fun h => hid (h1.trans h.symm)
        apply List.ne_nil_of_mem (a := b2)
        simp [List.mem_filter, h2]
      · apply List.ne_nil_of_mem (a := b1)
        simp [List.mem_filter, h1]
  · intro blocks nb afterId
    match afterId with
    | none => simp [addBlock]
    | some aid =>
      cases h : blocks.findIdx? (fun b => b.id = aid) with
      | some idx => simp [addBlock, h]
      | none => simp [addBlock, h]
  · intro blocks id text hne
    simp only [updateBlockText, ne_eq, List.map_eq_nil_iff]
    exact hne

/-- Two distinct segments used to witness C10. -/
def blocks10 : List AudioBlock :=
  [{ id := "a", text := "" }, { id := "b", text := "" }]

/-- Witness for `segment_list_nonempty`: removing one of two segments
leaves the list non-empty. -/
theorem segment_list_nonempty_witness :
    removeBlock blocks10 "a" ≠ [] :=
  segment_list_nonempty.2.2.1 blocks10 "a" (by decide) (by decide)
